import Mathlib

/-!
Verification of the arithmetic-quiz core (src/utils/mathUtils.ts).

The TypeScript source is shallowly embedded here:
* JavaScript numbers are modelled as rationals (`ℚ`); the one place where
  IEEE special values (NaN, ±∞) are observable — `calculateRating` with
  `total = 0` — is modelled with the dedicated type `JSNum`.
* `Math.random()` and the other random primitives are modelled by an
  explicit oracle `Rng` together with a call counter threaded through the
  generator, so every theorem quantifies over all random outcomes.
* The source's `while`-style loops become fuel-based structural recursion
  (the fuel is exactly the source's own attempt bound, or a provably
  sufficient bound derived from the loop measure) or well-founded
  recursion on the loop measure.
-/

/-- The `Operator` union type from `../types`: the four arithmetic operators. -/
inductive Operator where
  | addition
  | subtraction
  | multiplication
  | division
deriving DecidableEq, Repr

/-- `getOperatorSymbol` from the source: display symbol of an operator. -/
def getOperatorSymbol (op : Operator) : String :=
  match op with
  | Operator.addition => "+"
  | Operator.subtraction => "-"
  | Operator.multiplication => "×"
  | Operator.division => "÷"

/-- Result record of `evaluateExpressionExtended`. -/
structure EvalResult where
  result : ℚ
  hasNegativeIntermediate : Bool
deriving DecidableEq, Repr

/-- `Math.round(x * 100) / 100` from the source: rounding to two decimal
places; `Math.round x = ⌊x + 1/2⌋` (round half toward positive infinity). -/
def round2 (q : ℚ) : ℚ :=
  ((⌊q * 100 + 1 / 2⌋ : ℤ) : ℚ) / 100

/-- One multiply/divide reduction of the evaluator's first pass:
`if (op === 'multiplication') res = n1 * n2; else res = n2 !== 0 ? n1 / n2 : 0`. -/
def mdApply (op : Operator) (n1 n2 : ℚ) : ℚ :=
  if op = Operator.multiplication then n1 * n2
  else if n2 ≠ 0 then n1 / n2 else 0

/-- Pass 1 of `evaluateExpressionExtended`: the `for` loop over `currentOps`
with `splice` and the `i--` that re-examines position `i` after a reduction.
`fuel` bounds the iterations; since every iteration strictly decreases
`ops.length - i`, fuel `ops.length + 1` is always sufficient (this is proved
as `mdLoopF_eq_mdP` and `mdLoopF_run` below). -/
def mdLoopF : ℕ → List ℚ → List Operator → ℕ → List ℚ × List Operator
  | 0, nums, ops, _ => (nums, ops)
  | fuel + 1, nums, ops, i =>
    if h : i < ops.length then
      let op := ops.get ⟨i, h⟩
      if op = Operator.multiplication ∨ op = Operator.division then
        let res := mdApply op (nums.getD i 0) (nums.getD (i + 1) 0)
        mdLoopF fuel (nums.take i ++ res :: nums.drop (i + 2)) (ops.eraseIdx i) i
      else
        mdLoopF fuel nums ops (i + 1)
    else (nums, ops)

/-- One addition/subtraction step of the evaluator's second pass:
`result += n2` / `result -= n2` (any other operator leaves `result` unchanged,
as in the source's `if/else if`). -/
def asApply (op : Operator) (r n : ℚ) : ℚ :=
  match op with
  | Operator.addition => r + n
  | Operator.subtraction => r - n
  | _ => r

/-- Pass-2 loop body: apply the operator, then
`if (result < 0) hasNegativeIntermediate = true`. -/
def asStep (st : ℚ × Bool) (p : Operator × ℚ) : ℚ × Bool :=
  let r := asApply p.1 st.1 p.2
  (r, st.2 || decide (r < 0))

/-- `evaluateExpressionExtended` from the source: multiply/divide reduction
pass, then left-to-right addition/subtraction starting from
`currentNumbers[0]`, flagging any negative running value, then rounding the
final result to two decimal places. -/
def evaluateExpressionExtended (numbers : List ℚ) (operators : List Operator) : EvalResult :=
  let md := mdLoopF (operators.length + 1) numbers operators 0
  let r0 := md.1.headD 0
  let fin := (md.2.zip (md.1.drop 1)).foldl asStep (r0, decide (r0 < 0))
  ⟨round2 fin.1, fin.2⟩

/-- Structural description of the multiply/divide pass, on the operand/operator
sequence viewed as a head operand followed by (operator, operand) pairs.  A
multiply/divide operator folds its right operand into the running value (the
source's `splice` + `i--`); any other operator is kept.  `mdLoopF_eq_mdP`
proves this equal to the source's index/splice loop. -/
def mdP : ℚ → List (Operator × ℚ) → ℚ × List (Operator × ℚ)
  | x, [] => (x, [])
  | x, (op, y) :: rest =>
    if op = Operator.multiplication ∨ op = Operator.division then
      mdP (mdApply op x y) rest
    else
      (x, (op, (mdP y rest).1) :: (mdP y rest).2)

/-- The running value of the left-to-right addition/subtraction pass. -/
def ASval (r : ℚ) (l : List (Operator × ℚ)) : ℚ :=
  l.foldl (fun r p => asApply p.1 r p.2) r

/-- All running values of the addition/subtraction pass: the initial value and
the running result after each step (the values the source checks against `< 0`). -/
def asRunningValues (r : ℚ) : List (Operator × ℚ) → List ℚ
  | [] => [r]
  | p :: l => r :: asRunningValues (asApply p.1 r p.2) l

/-- The running values of the addition/subtraction pass performed on the
operand/operator lists left over by the multiply/divide pass, with the same
initial value (`currentNumbers[0]`) and iteration order as the source. -/
def runningValuesOf (nums : List ℚ) (ops : List Operator) : List ℚ :=
  asRunningValues (nums.headD 0) (ops.zip (nums.drop 1))

/-- Add or subtract `t` from `acc` according to the pending sign. -/
def sapp (acc : ℚ) (sgn : Bool) (t : ℚ) : ℚ :=
  if sgn then acc + t else acc - t

/-- Reference evaluator, following the spec's words: standard precedence,
i.e. maximal multiply/divide runs are evaluated left to right into terms and
the terms are then added/subtracted left to right; a division whose right
operand is zero is defined as zero (the spec's stated convention). -/
def refGo (acc : ℚ) (sgn : Bool) (term : ℚ) : List (Operator × ℚ) → ℚ
  | [] => sapp acc sgn term
  | (op, n) :: rest =>
    match op with
    | Operator.addition => refGo (sapp acc sgn term) true n rest
    | Operator.subtraction => refGo (sapp acc sgn term) false n rest
    | Operator.multiplication => refGo acc sgn (term * n) rest
    | Operator.division => refGo acc sgn (if n = 0 then 0 else term / n) rest

/-- Reference standard-precedence evaluation of an operand/operator sequence,
rounded to two decimal places as the spec requires of the final result. -/
def refEval (numbers : List ℚ) (operators : List Operator) : ℚ :=
  match numbers with
  | [] => 0
  | x :: rest => round2 (refGo 0 true x (operators.zip rest))

/-- The `DifficultyLevel` union type from `../types`. -/
inductive DifficultyLevel where
  | easy
  | medium
  | hard
  | custom
deriving DecidableEq, Repr

/-- The value type of the `DIFFICULTY_PRESETS` table. -/
structure DifficultyPreset where
  min : ℚ
  max : ℚ
  operandCount : ℕ
deriving DecidableEq, Repr

/-- `DIFFICULTY_PRESETS` from the source: a record keyed by
`Exclude<DifficultyLevel, 'custom'>`; the absence of a `custom` key is
modelled by an `Option`-valued lookup returning `none` there. -/
def DIFFICULTY_PRESETS : DifficultyLevel → Option DifficultyPreset
  | DifficultyLevel.easy => some ⟨1, 10, 2⟩
  | DifficultyLevel.medium => some ⟨10, 50, 2⟩
  | DifficultyLevel.hard => some ⟨10, 100, 3⟩
  | DifficultyLevel.custom => none

/-- A JavaScript number as observable by `calculateRating`: a finite value
(idealised as an exact rational), one of the two infinities, or NaN.  Only the
operations `calculateRating` performs are modelled. -/
inductive JSNum where
  | fin (q : ℚ)
  | posInf
  | negInf
  | nan
deriving DecidableEq, Repr

/-- JavaScript division `a / b` of finite operands: finite quotient when
`b ≠ 0`, otherwise `±Infinity` by the sign of `a`, or `NaN` for `0 / 0`. -/
def jsDiv (a b : ℚ) : JSNum :=
  if b = 0 then
    if 0 < a then JSNum.posInf else if a < 0 then JSNum.negInf else JSNum.nan
  else JSNum.fin (a / b)

/-- JavaScript multiplication of the accuracy ratio by the literal `100`. -/
def jsMul100 : JSNum → JSNum
  | JSNum.fin q => JSNum.fin (q * 100)
  | JSNum.posInf => JSNum.posInf
  | JSNum.negInf => JSNum.negInf
  | JSNum.nan => JSNum.nan

/-- JavaScript `x === c` against a finite literal: false on NaN and infinities. -/
def jsEqC (x : JSNum) (c : ℚ) : Bool :=
  match x with
  | JSNum.fin q => decide (q = c)
  | _ => false

/-- JavaScript `x < c` against a finite literal: false on NaN and `+Infinity`. -/
def jsLtC (x : JSNum) (c : ℚ) : Bool :=
  match x with
  | JSNum.fin q => decide (q < c)
  | JSNum.negInf => true
  | _ => false

/-- JavaScript `x >= c` against a finite literal: false on NaN and `-Infinity`. -/
def jsGeC (x : JSNum) (c : ℚ) : Bool :=
  match x with
  | JSNum.fin q => decide (c ≤ q)
  | JSNum.posInf => true
  | _ => false

/-- The `{grade, color}` record returned by `calculateRating`. -/
structure Rating where
  grade : String
  color : String
deriving DecidableEq, Repr

/-- `calculateRating` from the source: `accuracy = score / total * 100`,
`avgTime = timeInSeconds / total`, then the nested comparison ladder. -/
def calculateRating (score total timeInSeconds : ℚ) : Rating :=
  let accuracy := jsMul100 (jsDiv score total)
  let avgTime := jsDiv timeInSeconds total
  if jsEqC accuracy 100 then
    if jsLtC avgTime 4 then ⟨"SSS", "text-yellow-500"⟩
    else if jsLtC avgTime 7 then ⟨"S", "text-orange-500"⟩
    else ⟨"A+", "text-indigo-500"⟩
  else if jsGeC accuracy 90 then
    if jsLtC avgTime 8 then ⟨"A", "text-indigo-400"⟩
    else ⟨"B+", "text-emerald-500"⟩
  else if jsGeC accuracy 80 then ⟨"B", "text-emerald-400"⟩
  else if jsGeC accuracy 60 then ⟨"C", "text-slate-400"⟩
  else ⟨"D", "text-rose-400"⟩

/-- The spec's grading decision table (§4.4), written from the spec's words
over exact rational accuracy and average time, for the caller-guarded case
`total > 0`. -/
def specRatingGrade (score total timeInSeconds : ℚ) : String :=
  let accuracy := score / total * 100
  let avgTime := timeInSeconds / total
  if accuracy = 100 then
    if avgTime < 4 then "SSS" else if avgTime < 7 then "S" else "A+"
  else if 90 ≤ accuracy then
    if avgTime < 8 then "A" else "B+"
  else if 80 ≤ accuracy then "B"
  else if 60 ≤ accuracy then "C"
  else "D"

/-- The `MathProblem` record from `../types`, as created and consumed by the
generator (`isCorrect` is `boolean | null`, hence `Option Bool`). -/
structure MathProblem where
  id : String
  expression : String
  correctAnswer : ℚ
  userAnswer : String
  isCorrect : Option Bool
  timestamp : ℤ
deriving DecidableEq, Repr

/-- The `QuizConfig` record from `../types`, with the fields the generator
reads; counts are naturals. -/
structure QuizConfig where
  min : ℚ
  max : ℚ
  operandCount : ℕ
  operators : List Operator
  mixedOperations : Bool
  allowNegative : Bool
  integerDivisionOnly : Bool
  quantity : ℕ

/-- Oracle for the source's random primitives.  `floats` are the successive
`Math.random()` results, consumed at an explicit call counter; `shuffles`
models `[...ops].sort(() => Math.random() - 0.5)`, whose outcome is an
implementation-defined rearrangement; `ids` models
`Math.random().toString(36).substr(2, 9)`; `now` models `Date.now()`.
Every generator theorem quantifies over the whole oracle. -/
structure Rng where
  floats : ℕ → ℚ
  shuffles : ℕ → List Operator → List Operator
  ids : ℕ → String
  now : ℤ

/-- One sampled operand:
`Math.floor(Math.random() * (config.max - config.min + 1)) + config.min`. -/
def sampleOperand (config : QuizConfig) (r : ℚ) : ℚ :=
  ((⌊r * (config.max - config.min + 1)⌋ : ℤ) : ℚ) + config.min

/-- `Number.isInteger` on the idealised rational value. -/
def isIntegerQ (q : ℚ) : Bool :=
  q.den == 1

/-- One step of the source's integer-division fix-up loop at slot `i`: for a
division slot, a zero right operand is first replaced by `1`, then the left
operand is set to the right operand times `Math.floor(Math.random()*10) + 1`. -/
def divFixup (ops : List Operator) (rng : Rng) (st : List ℚ × ℕ) (i : ℕ) : List ℚ × ℕ :=
  if ops.getD i Operator.addition = Operator.division then
    let nums1 := if st.1.getD (i + 1) 0 = 0 then st.1.set (i + 1) 1 else st.1
    let m := (⌊rng.floats st.2 * 10⌋ : ℤ) + 1
    (nums1.set i (nums1.getD (i + 1) 0 * (m : ℚ)), st.2 + 1)
  else st

/-- The operand list and operator list built by one attempt of
`generateSingleProblem` (everything before the evaluation and the
accept/reject checks), together with the advanced random-call counter. -/
structure Candidate where
  numbers : List ℚ
  ops : List Operator
  next : ℕ

/-- One attempt's candidate construction, mirroring the source line by line:
sample `operandCount` operands; draw the base operator; shuffle the pool;
fill `operandCount - 1` operator slots (popping the pool when mixing, else
repeating the base operator); swap the two operands of a 2-operand
subtraction when negatives are disallowed and the first is smaller; then run
the integer-division fix-up when required. -/
def attemptCandidate (config : QuizConfig) (rng : Rng) (k : ℕ) : Candidate :=
  let count := config.operandCount
  let numbers := (List.range count).map fun i => sampleOperand config (rng.floats (k + i))
  let k1 := k + count
  let selectedOps := config.operators
  let baseOp := selectedOps.getD (⌊rng.floats k1 * (selectedOps.length : ℚ)⌋).toNat Operator.addition
  let pool0 := rng.shuffles (k1 + 1) selectedOps
  let slots := (List.range (count - 1)).foldl
    (fun (st : List Operator × List Operator × ℕ) _ =>
      if config.mixedOperations = true then
        match st.2.1.getLast? with
        | some op => (st.1 ++ [op], st.2.1.dropLast, st.2.2)
        | none =>
            (st.1 ++ [selectedOps.getD (⌊rng.floats st.2.2 * (selectedOps.length : ℚ)⌋).toNat Operator.addition],
             st.2.1, st.2.2 + 1)
      else (st.1 ++ [baseOp], st.2.1, st.2.2))
    ([], pool0, k1 + 2)
  let ops := slots.1
  let k2 := slots.2.2
  let a := numbers.getD 0 0
  let b := numbers.getD 1 0
  let numbers2 :=
    if config.allowNegative = false ∧ count = 2 ∧ ops.getD 0 Operator.addition = Operator.subtraction ∧ a < b
    then (numbers.set 0 b).set 1 a else numbers
  let fixed :=
    if config.integerDivisionOnly = true then
      (List.range ops.length).foldl (divFixup ops rng) (numbers2, k2)
    else (numbers2, k2)
  ⟨fixed.1, ops, fixed.2⟩

/-- The rendered expression string: operands interleaved with operator
symbols, exactly as the source's string-building loop. -/
def exprString (nums : List ℚ) (ops : List Operator) : String :=
  (List.range nums.length).foldl
    (fun s i =>
      let s1 := s ++ toString (nums.getD i 0)
      if i < ops.length then s1 ++ " " ++ getOperatorSymbol (ops.getD i Operator.addition) ++ " "
      else s1)
    ""

/-- One full attempt of `generateSingleProblem`: build the candidate,
evaluate it, apply the two rejection checks, and on acceptance assemble the
returned `MathProblem`. `none` means the attempt was rejected (`continue`). -/
def attemptProblem (config : QuizConfig) (rng : Rng) (k : ℕ) : Option MathProblem × ℕ :=
  let c := attemptCandidate config rng k
  let e := evaluateExpressionExtended c.numbers c.ops
  if config.allowNegative = false ∧ (e.result < 0 ∨ e.hasNegativeIntermediate = true) then
    (none, c.next)
  else if config.integerDivisionOnly = true ∧ isIntegerQ e.result = false then
    (none, c.next)
  else
    (some { id := rng.ids c.next, expression := exprString c.numbers c.ops,
            correctAnswer := e.result, userAnswer := "", isCorrect := none,
            timestamp := rng.now }, c.next + 1)

/-- The fixed fallback problem returned after 200 exhausted attempts. -/
def fallbackProblem (rng : Rng) : MathProblem :=
  { id := "fallback", expression := "1 + 1", correctAnswer := 2, userAnswer := "",
    isCorrect := none, timestamp := rng.now }

/-- The source's `while (attempts < 200)` retry loop, with the remaining
attempts as fuel. -/
def generateLoop (config : QuizConfig) (rng : Rng) : ℕ → ℕ → MathProblem × ℕ
  | 0, k => (fallbackProblem rng, k)
  | fuel + 1, k =>
    match attemptProblem config rng k with
    | (some p, k1) => (p, k1)
    | (none, k1) => generateLoop config rng fuel k1

/-- `generateSingleProblem` from the source: at most 200 attempts, then the
fixed fallback. -/
def generateSingleProblem (config : QuizConfig) (rng : Rng) (k : ℕ) : MathProblem × ℕ :=
  generateLoop config rng 200 k

/-- The outcome of the bounded search for the first accepted attempt among
the next `fuel` attempts (used to state what `generateSingleProblem` returns). -/
def firstAccept (config : QuizConfig) (rng : Rng) : ℕ → ℕ → Option (MathProblem × ℕ)
  | 0, _ => none
  | fuel + 1, k =>
    match attemptProblem config rng k with
    | (some p, k1) => some (p, k1)
    | (none, k1) => firstAccept config rng fuel k1

/-- Phase 1 of `generateProblemSet`: the dedup-preferred loop, bounded by
`quantity * 50` total attempts (the fuel); a generated problem is kept only
if its expression string is unseen.  State: (problems, seen, counter). -/
def fillDedup (config : QuizConfig) (rng : Rng) :
    ℕ → List MathProblem → List String → ℕ → List MathProblem × List String × ℕ
  | 0, probs, seen, k => (probs, seen, k)
  | fuel + 1, probs, seen, k =>
    if probs.length < config.quantity then
      let r := generateSingleProblem config rng k
      if seen.contains r.1.expression then fillDedup config rng fuel probs seen r.2
      else fillDedup config rng fuel (probs ++ [r.1]) (r.1.expression :: seen) r.2
    else (probs, seen, k)

/-- Phase 2 of `generateProblemSet`: the unconditional fill loop
`while (problems.length < config.quantity)`, which pushes one problem per
iteration; it terminates because the shortfall strictly decreases. -/
def fillRest (config : QuizConfig) (rng : Rng) (probs : List MathProblem) (k : ℕ) :
    List MathProblem × ℕ :=
  if h : probs.length < config.quantity then
    let r := generateSingleProblem config rng k
    fillRest config rng (probs ++ [r.1]) r.2
  else (probs, k)
termination_by config.quantity - probs.length
decreasing_by simp; omega

/-- `generateProblemSet` from the source: dedup-preferred phase, then the
unconditional fill phase. -/
def generateProblemSet (config : QuizConfig) (rng : Rng) (k : ℕ) : List MathProblem × ℕ :=
  let st := fillDedup config rng (config.quantity * 50) [] [] k
  fillRest config rng st.1 st.2.2

/-- A concrete random oracle (all draws 0) used to instantiate theorems. -/
def rng0 : Rng :=
  { floats := fun _ => 0, shuffles := fun _ l => l, ids := fun _ => "", now := 0 }

/-- A concrete random oracle (all draws 1/2) used to instantiate theorems. -/
def rngHalf : Rng :=
  { floats := fun _ => 1 / 2, shuffles := fun _ l => l, ids := fun _ => "", now := 0 }

/-- A concrete configuration used to instantiate generator theorems. -/
def cfgSub : QuizConfig :=
  { min := 1, max := 2, operandCount := 2, operators := [Operator.subtraction],
    mixedOperations := false, allowNegative := false, integerDivisionOnly := true,
    quantity := 1 }

theorem getD_append_len {α : Type} (pre : List α) (x : α) (l : List α) (d : α) :
    (pre ++ x :: l).getD pre.length d = x := by
  induction pre with
  | nil => rfl
  | cons a t ih => simpa using ih

theorem getD_append_of_len {α : Type} (pre : List α) (x : α) (l : List α) (d : α) (i : ℕ)
    (h : i = pre.length) : (pre ++ x :: l).getD i d = x := by
  subst h; exact getD_append_len pre x l d

theorem getD_append_len_succ {α : Type} (pre : List α) (x y : α) (l : List α) (d : α) :
    (pre ++ x :: y :: l).getD (pre.length + 1) d = y := by
  induction pre with
  | nil => rfl
  | cons a t ih => simpa using ih

theorem getD_append_of_len_succ {α : Type} (pre : List α) (x y : α) (l : List α) (d : α) (i : ℕ)
    (h : i = pre.length) : (pre ++ x :: y :: l).getD (i + 1) d = y := by
  subst h; exact getD_append_len_succ pre x y l d

theorem get_append_len {α : Type} (pre : List α) (x : α) (l : List α) (i : ℕ)
    (h : i = pre.length) (hlt : i < (pre ++ x :: l).length) :
    (pre ++ x :: l).get ⟨i, hlt⟩ = x := by
  subst h
  induction pre with
  | nil => rfl
  | cons a t ih => simpa using ih (by simpa using hlt)

theorem take_append_of_len {α : Type} (pre : List α) (x : α) (l : List α) (i : ℕ)
    (h : i = pre.length) : (pre ++ x :: l).take i = pre := by
  subst h
  induction pre with
  | nil => rfl
  | cons a t ih => simpa using ih

theorem drop_append_of_len2 {α : Type} (pre : List α) (x y : α) (l : List α) (i : ℕ)
    (h : i = pre.length) : (pre ++ x :: y :: l).drop (i + 2) = l := by
  subst h
  induction pre with
  | nil => rfl
  | cons a t ih =>
      have : t.length + 1 + 2 = (t.length + 2) + 1 := by omega
      simpa [this] using ih

theorem eraseIdx_append_of_len {α : Type} (pre : List α) (x : α) (l : List α) (i : ℕ)
    (h : i = pre.length) : (pre ++ x :: l).eraseIdx i = pre ++ l := by
  subst h
  induction pre with
  | nil => rfl
  | cons a t ih => simpa using ih

/-- The source's splice/`i--` multiply-divide loop agrees with the structural
description `mdP`, for any processed prefix free of pending work and any
sufficient fuel. -/
theorem mdLoopF_eq_mdP (ps : List (Operator × ℚ)) :
    ∀ (x : ℚ) (pre : List ℚ) (preOps : List Operator) (fuel : ℕ),
      pre.length = preOps.length → ps.length < fuel →
      mdLoopF fuel (pre ++ x :: ps.map Prod.snd) (preOps ++ ps.map Prod.fst) preOps.length
        = (pre ++ (mdP x ps).1 :: (mdP x ps).2.map Prod.snd,
           preOps ++ (mdP x ps).2.map Prod.fst) := by
  induction ps with
  | nil =>
      intro x pre preOps fuel hlen hfuel
      cases fuel with
      | zero => simp at hfuel
      | succ f => simp [mdLoopF, mdP]
  | cons hd rest ih =>
      obtain ⟨op, y⟩ := hd
      intro x pre preOps fuel hlen hfuel
      cases fuel with
      | zero => simp at hfuel
      | succ f =>
          have hi : preOps.length < (preOps ++ ((op, y) :: rest).map Prod.fst).length := by
            simp
          have hget : (preOps ++ ((op, y) :: rest).map Prod.fst).get ⟨preOps.length, hi⟩ = op := by
            simpa using get_append_len preOps op (rest.map Prod.fst) preOps.length rfl
              (by simpa using hi)
          rw [show ((op, y) :: rest).map Prod.snd = y :: rest.map Prod.snd from rfl]
          rw [mdLoopF]
          rw [dif_pos hi, hget]
          by_cases hop : op = Operator.multiplication ∨ op = Operator.division
          · rw [if_pos hop]
            rw [getD_append_of_len pre x (y :: rest.map Prod.snd) 0 preOps.length hlen.symm,
              getD_append_of_len_succ pre x y (rest.map Prod.snd) 0 preOps.length hlen.symm,
              take_append_of_len pre x (y :: rest.map Prod.snd) preOps.length hlen.symm,
              drop_append_of_len2 pre x y (rest.map Prod.snd) preOps.length hlen.symm,
              show ((op, y) :: rest).map Prod.fst = op :: rest.map Prod.fst from rfl,
              eraseIdx_append_of_len preOps op (rest.map Prod.fst) preOps.length rfl]
            have hrec := ih (mdApply op x y) pre preOps f hlen (by simp at hfuel ⊢; omega)
            rw [hrec]
            rw [show mdP x ((op, y) :: rest) = mdP (mdApply op x y) rest from by
              rw [mdP]; rw [if_pos hop]]
          · rw [if_neg hop]
            have hrec := ih y (pre ++ [x]) (preOps ++ [op]) f (by simp [hlen])
              (by simp at hfuel ⊢; omega)
            have hmdp : mdP x ((op, y) :: rest)
                = (x, (op, (mdP y rest).1) :: (mdP y rest).2) := by
              rw [mdP]; rw [if_neg hop]
            rw [hmdp]
            simpa [List.append_assoc] using hrec

/-- Running the multiply/divide loop as the evaluator does (from position 0,
fuel one more than the operator count) yields exactly `mdP`. -/
theorem mdLoopF_run (x : ℚ) (ps : List (Operator × ℚ)) :
    mdLoopF ((ps.map Prod.fst).length + 1) (x :: ps.map Prod.snd) (ps.map Prod.fst) 0
      = ((mdP x ps).1 :: (mdP x ps).2.map Prod.snd, (mdP x ps).2.map Prod.fst) := by
  simpa using mdLoopF_eq_mdP ps x [] [] ((ps.map Prod.fst).length + 1) rfl (by simp)

theorem foldl_asStep_fst : ∀ (l : List (Operator × ℚ)) (r : ℚ) (b : Bool),
    (l.foldl asStep (r, b)).1 = ASval r l := by
  intro l
  induction l with
  | nil => intro r b; rfl
  | cons p t ih => intro r b; simpa [asStep, ASval] using ih (asApply p.1 r p.2) _

theorem asRunningValues_head_tail (r : ℚ) (l : List (Operator × ℚ)) :
    asRunningValues r l = r :: (asRunningValues r l).tail := by
  cases l <;> simp [asRunningValues]

theorem foldl_asStep_snd : ∀ (l : List (Operator × ℚ)) (r : ℚ) (b : Bool),
    (l.foldl asStep (r, b)).2
      = (b || ((asRunningValues r l).tail.any fun v => decide (v < 0))) := by
  intro l
  induction l with
  | nil => intro r b; simp [asRunningValues]
  | cons p t ih =>
      intro r b
      have step : (p :: t).foldl asStep (r, b)
          = t.foldl asStep (asApply p.1 r p.2, b || decide (asApply p.1 r p.2 < 0)) := rfl
      rw [step, ih]
      conv_rhs =>
        rw [show asRunningValues r (p :: t) = r :: asRunningValues (asApply p.1 r p.2) t from rfl]
      rw [asRunningValues_head_tail (asApply p.1 r p.2) t]
      simp [Bool.or_assoc]

/-- The pass-2 flag is exactly "some running value is negative". -/
theorem foldl_asStep_flag (l : List (Operator × ℚ)) (r : ℚ) :
    (l.foldl asStep (r, decide (r < 0))).2
      = ((asRunningValues r l).any fun v => decide (v < 0)) := by
  rw [foldl_asStep_snd]
  conv_rhs => rw [asRunningValues_head_tail r l]
  simp

/-- The spec's standard-precedence reference evaluation agrees with the
add/subtract fold over the multiply/divide-reduced sequence. -/
theorem refGo_eq_ASval : ∀ (ps : List (Operator × ℚ)) (x acc : ℚ) (sgn : Bool),
    refGo acc sgn x ps = ASval (sapp acc sgn (mdP x ps).1) (mdP x ps).2 := by
  intro ps
  induction ps with
  | nil => intro x acc sgn; rfl
  | cons hd rest ih =>
      obtain ⟨op, n⟩ := hd
      intro x acc sgn
      cases op with
      | addition =>
          rw [show refGo acc sgn x ((Operator.addition, n) :: rest)
              = refGo (sapp acc sgn x) true n rest from rfl]
          rw [ih]
          rw [show mdP x ((Operator.addition, n) :: rest)
              = (x, (Operator.addition, (mdP n rest).1) :: (mdP n rest).2) from by
            rw [mdP, if_neg (by decide)]]
          simp [ASval, asApply, sapp]
      | subtraction =>
          rw [show refGo acc sgn x ((Operator.subtraction, n) :: rest)
              = refGo (sapp acc sgn x) false n rest from rfl]
          rw [ih]
          rw [show mdP x ((Operator.subtraction, n) :: rest)
              = (x, (Operator.subtraction, (mdP n rest).1) :: (mdP n rest).2) from by
            rw [mdP, if_neg (by decide)]]
          simp [ASval, asApply, sapp]
      | multiplication =>
          rw [show refGo acc sgn x ((Operator.multiplication, n) :: rest)
              = refGo acc sgn (x * n) rest from rfl]
          rw [ih]
          rw [show mdP x ((Operator.multiplication, n) :: rest)
              = mdP (mdApply Operator.multiplication x n) rest from by
            rw [mdP, if_pos (by decide)]]
          rw [show mdApply Operator.multiplication x n = x * n from by simp [mdApply]]
      | division =>
          rw [show refGo acc sgn x ((Operator.division, n) :: rest)
              = refGo acc sgn (if n = 0 then 0 else x / n) rest from rfl]
          rw [ih]
          rw [show mdP x ((Operator.division, n) :: rest)
              = mdP (mdApply Operator.division x n) rest from by
            rw [mdP, if_pos (by decide)]]
          rw [show mdApply Operator.division x n = if n = 0 then 0 else x / n from by
            by_cases hn : n = 0 <;> simp [mdApply, hn]]

/-- The evaluator, on a sequence presented as head operand plus
(operator, operand) pairs: result and flag in terms of `mdP`. -/
theorem evaluateExpressionExtended_pairs (x : ℚ) (ps : List (Operator × ℚ)) :
    evaluateExpressionExtended (x :: ps.map Prod.snd) (ps.map Prod.fst)
      = ⟨round2 (ASval (mdP x ps).1 (mdP x ps).2),
         (asRunningValues (mdP x ps).1 (mdP x ps).2).any fun v => decide (v < 0)⟩ := by
  unfold evaluateExpressionExtended
  rw [mdLoopF_run]
  simp only [List.headD_cons, List.drop_one, List.tail_cons]
  rw [List.zip_map']
  rw [show ((mdP x ps).2.map fun a => (a.1, a.2)) = (mdP x ps).2 from by simp]
  rw [foldl_asStep_fst, foldl_asStep_flag]

/-- C1: for every operand list and operator list with one more operand than
operators, the evaluator's multiply/divide reduction pass followed by the
left-to-right add/subtract pass computes the standard-precedence value of the
sequence (both rounded to two decimal places); in particular
`evaluate([6,3],[multiplication])` yields result 18. -/
theorem evaluator_matches_standard_precedence :
    (∀ (numbers : List ℚ) (operators : List Operator),
        operators.length + 1 = numbers.length →
        (evaluateExpressionExtended numbers operators).result = refEval numbers operators)
      ∧ evaluateExpressionExtended [6, 3] [Operator.multiplication] = ⟨18, false⟩ := by
  constructor
  · intro numbers operators hlen
    cases numbers with
    | nil => simp at hlen
    | cons x rest =>
        have hlen' : operators.length = rest.length := by simpa using hlen
        have h1 : (operators.zip rest).map Prod.fst = operators :=
          List.map_fst_zip _ _ (le_of_eq hlen')
        have h2 : (operators.zip rest).map Prod.snd = rest :=
          List.map_snd_zip _ _ (le_of_eq hlen'.symm)
        set ps := operators.zip rest with hps
        rw [← h1, ← h2]
        rw [evaluateExpressionExtended_pairs]
        rw [show refEval (x :: ps.map Prod.snd) (ps.map Prod.fst)
            = round2 (refGo 0 true x ((ps.map Prod.fst).zip (ps.map Prod.snd))) from rfl]
        rw [List.zip_map']
        rw [show (ps.map fun a => (a.1, a.2)) = ps from by simp]
        rw [refGo_eq_ASval]
        simp [sapp]
  · simp +decide [evaluateExpressionExtended, mdLoopF, asStep, asApply, mdApply, round2]
    norm_num

theorem evaluator_matches_standard_precedence_inst :
    (evaluateExpressionExtended [6, 3] [Operator.multiplication]).result
      = refEval [6, 3] [Operator.multiplication] :=
  evaluator_matches_standard_precedence.1 [6, 3] [Operator.multiplication] rfl

/-- C6: a division whose right operand is exactly zero is computed as zero by
the evaluator's reduction step (no error path exists: the evaluator is a total
function by construction), shown also end to end at `5 ÷ 0` and inside a
longer expression `8 ÷ 0 + 3`. -/
theorem division_by_zero_defused :
    (∀ n : ℚ, mdApply Operator.division n 0 = 0)
      ∧ evaluateExpressionExtended [5, 0] [Operator.division] = ⟨0, false⟩
      ∧ evaluateExpressionExtended [8, 0, 3] [Operator.division, Operator.addition]
          = ⟨3, false⟩ := by
  refine ⟨fun n => by simp +decide [mdApply], ?_, ?_⟩
  · simp +decide [evaluateExpressionExtended, mdLoopF, asStep, asApply, mdApply, round2]
    norm_num
  · simp +decide [evaluateExpressionExtended, mdLoopF, asStep, asApply, mdApply, round2]
    norm_num

/-- C7: the evaluator's `hasNegativeIntermediate` flag is true exactly when
some running value of the add/subtract pass — the first operand left by the
multiply/divide pass, or the running result after any add/subtract step — is
negative; in particular `evaluate([2,5],[subtraction])` yields −3 with the
flag set and `evaluate([6,3],[multiplication])` yields 18 with the flag
clear. -/
theorem negative_intermediate_flag :
    (∀ (numbers : List ℚ) (operators : List Operator),
        ((evaluateExpressionExtended numbers operators).hasNegativeIntermediate = true
          ↔ ∃ v ∈ runningValuesOf
              (mdLoopF (operators.length + 1) numbers operators 0).1
              (mdLoopF (operators.length + 1) numbers operators 0).2, v < 0))
      ∧ evaluateExpressionExtended [2, 5] [Operator.subtraction] = ⟨-3, true⟩
      ∧ (evaluateExpressionExtended [6, 3] [Operator.multiplication]).hasNegativeIntermediate
          = false := by
  refine ⟨?_, ?_, ?_⟩
  · intro numbers operators
    unfold evaluateExpressionExtended runningValuesOf
    dsimp only
    rw [foldl_asStep_flag]
    rw [List.any_eq_true]
    simp
  · simp +decide [evaluateExpressionExtended, mdLoopF, asStep, asApply, mdApply, round2]
    norm_num
  · simp +decide [evaluateExpressionExtended, mdLoopF, asStep, asApply, mdApply, round2]

/-- C9: the difficulty preset table maps easy to (1, 10, 2), medium to
(10, 50, 2), hard to (10, 100, 3), and has no entry for custom. -/
theorem difficulty_presets_table :
    DIFFICULTY_PRESETS DifficultyLevel.easy = some ⟨1, 10, 2⟩
      ∧ DIFFICULTY_PRESETS DifficultyLevel.medium = some ⟨10, 50, 2⟩
      ∧ DIFFICULTY_PRESETS DifficultyLevel.hard = some ⟨10, 100, 3⟩
      ∧ DIFFICULTY_PRESETS DifficultyLevel.custom = none :=
  ⟨rfl, rfl, rfl, rfl⟩

/-- C3: for nonnegative score, positive total and nonnegative elapsed time,
`calculateRating` returns exactly the grade of the spec's decision table over
accuracy and average time; in particular `rate(10,10,30) = SSS`,
`rate(9,10,80) = B+` and `rate(5,10,100) = D`. -/
theorem calculateRating_matches_table :
    (∀ score total t : ℚ, 0 ≤ score → 0 < total → 0 ≤ t →
        (calculateRating score total t).grade = specRatingGrade score total t)
      ∧ (calculateRating 10 10 30).grade = "SSS"
      ∧ (calculateRating 9 10 80).grade = "B+"
      ∧ (calculateRating 5 10 100).grade = "D" := by
  refine ⟨?_, ?_, ?_, ?_⟩
  · intro score total t hs htot ht
    have hne : total ≠ 0 := ne_of_gt htot
    unfold calculateRating specRatingGrade
    simp only [jsDiv, if_neg hne, jsMul100, jsEqC, jsGeC, jsLtC, decide_eq_true_eq]
    split_ifs <;> rfl
  · norm_num [calculateRating, jsDiv, jsMul100, jsEqC, jsLtC, jsGeC]
  · norm_num [calculateRating, jsDiv, jsMul100, jsEqC, jsLtC, jsGeC]
  · norm_num [calculateRating, jsDiv, jsMul100, jsEqC, jsLtC, jsGeC]

theorem calculateRating_matches_table_inst :
    (calculateRating 10 10 30).grade = specRatingGrade 10 10 30 :=
  calculateRating_matches_table.1 10 10 30 (by norm_num) (by norm_num) (by norm_num)

/-- C10: `calculateRating` is total at `total = 0`: with the IEEE semantics of
the division (modelled by `JSNum`), a zero score gives NaN accuracy, every
comparison of the ladder is false, and the grade is D; a positive score gives
+∞ accuracy, so the `accuracy ≥ 90` branch fires and +∞ (or NaN) average time
makes the `< 8` comparison false, giving B+. -/
theorem calculateRating_total_zero :
    (∀ t : ℚ, 0 ≤ t → (calculateRating 0 0 t).grade = "D")
      ∧ (∀ s t : ℚ, 0 < s → 0 ≤ t → (calculateRating s 0 t).grade = "B+") := by
  constructor
  · intro t ht
    simp [calculateRating, jsDiv, jsMul100, jsEqC, jsGeC]
  · intro s t hs ht
    have htn : ¬ t < 0 := not_lt.mpr ht
    by_cases htp : 0 < t <;>
      simp [calculateRating, jsDiv, jsMul100, jsEqC, jsGeC, jsLtC, hs, htp, htn]

theorem calculateRating_total_zero_inst :
    (calculateRating 0 0 5).grade = "D" ∧ (calculateRating 1 0 5).grade = "B+" :=
  ⟨calculateRating_total_zero.1 5 (by norm_num),
   calculateRating_total_zero.2 1 5 (by norm_num) (by norm_num)⟩

theorem generateLoop_firstAccept (config : QuizConfig) (rng : Rng) :
    ∀ (fuel k : ℕ),
      (∃ pk, firstAccept config rng fuel k = some pk ∧ generateLoop config rng fuel k = pk)
        ∨ (firstAccept config rng fuel k = none
            ∧ (generateLoop config rng fuel k).1 = fallbackProblem rng) := by
  intro fuel
  induction fuel with
  | zero => intro k; exact Or.inr ⟨rfl, rfl⟩
  | succ f ih =>
      intro k
      cases hA : attemptProblem config rng k with
      | mk o k1 =>
          cases o with
          | some p =>
              exact Or.inl ⟨(p, k1), by simp [firstAccept, hA], by simp [generateLoop, hA]⟩
          | none =>
              have hfa : firstAccept config rng (f + 1) k = firstAccept config rng f k1 := by
                simp [firstAccept, hA]
              have hgl : generateLoop config rng (f + 1) k = generateLoop config rng f k1 := by
                simp [generateLoop, hA]
              rw [hfa, hgl]
              exact ih k1

/-- C8: `generateSingleProblem` never fails: for every configuration and
every random oracle it returns the problem of the first accepted attempt
among at most 200 attempts, and when all 200 attempts are rejected it
returns exactly the fixed fallback problem "1 + 1" with answer 2, empty
user answer and unset correctness flag. -/
theorem generateSingleProblem_never_fails :
    ∀ (config : QuizConfig) (rng : Rng) (k : ℕ),
      (∃ pk, firstAccept config rng 200 k = some pk
          ∧ generateSingleProblem config rng k = pk)
        ∨ (firstAccept config rng 200 k = none
            ∧ (generateSingleProblem config rng k).1
                = { id := "fallback", expression := "1 + 1", correctAnswer := 2,
                    userAnswer := "", isCorrect := none, timestamp := rng.now }) :=
  fun config rng k => generateLoop_firstAccept config rng 200 k

theorem fillDedup_length_le (config : QuizConfig) (rng : Rng) :
    ∀ (fuel : ℕ) (probs : List MathProblem) (seen : List String) (k : ℕ),
      probs.length ≤ config.quantity →
      ((fillDedup config rng fuel probs seen k).1).length ≤ config.quantity := by
  intro fuel
  induction fuel with
  | zero => intro probs seen k h; simpa [fillDedup] using h
  | succ f ih =>
      intro probs seen k h
      rw [fillDedup]
      dsimp only
      split_ifs with hlt hc
      · exact ih _ _ _ h
      · exact ih _ _ _ (by simp; omega)
      · exact h

theorem fillRest_length (config : QuizConfig) (rng : Rng) :
    ∀ (probs : List MathProblem) (k : ℕ), probs.length ≤ config.quantity →
      ((fillRest config rng probs k).1).length = config.quantity := by
  suffices H : ∀ (n : ℕ) (probs : List MathProblem) (k : ℕ),
      config.quantity - probs.length ≤ n → probs.length ≤ config.quantity →
      ((fillRest config rng probs k).1).length = config.quantity by
    intro probs k h
    exact H config.quantity probs k (by omega) h
  intro n
  induction n with
  | zero =>
      intro probs k hn h
      have hge : ¬ probs.length < config.quantity := by omega
      rw [fillRest, dif_neg hge]
      dsimp only
      omega
  | succ m ih =>
      intro probs k hn h
      rw [fillRest]
      by_cases hlt : probs.length < config.quantity
      · rw [dif_pos hlt]
        dsimp only
        exact ih _ _ (by simp; omega) (by simp; omega)
      · rw [dif_neg hlt]
        dsimp only
        omega

/-- C2: for every configuration and every random oracle, `generateProblemSet`
terminates (it is a total function, the two loops being bounded by the
attempt budget and by the shortfall) and returns a list of length exactly
`config.quantity`. -/
theorem generateProblemSet_length :
    ∀ (config : QuizConfig) (rng : Rng) (k : ℕ),
      ((generateProblemSet config rng k).1).length = config.quantity := by
  intro config rng k
  unfold generateProblemSet
  dsimp only
  exact fillRest_length config rng _ _
    (fillDedup_length_le config rng _ _ _ _ (by simp))

theorem attemptProblem_accepts (config : QuizConfig) (rng : Rng) (k : ℕ) (p : MathProblem)
    (k1 : ℕ) (h : attemptProblem config rng k = (some p, k1)) :
    p.correctAnswer
        = (evaluateExpressionExtended (attemptCandidate config rng k).numbers
            (attemptCandidate config rng k).ops).result
      ∧ (config.allowNegative = false →
          0 ≤ (evaluateExpressionExtended (attemptCandidate config rng k).numbers
                (attemptCandidate config rng k).ops).result
            ∧ (evaluateExpressionExtended (attemptCandidate config rng k).numbers
                (attemptCandidate config rng k).ops).hasNegativeIntermediate = false)
      ∧ (config.integerDivisionOnly = true →
          isIntegerQ (evaluateExpressionExtended (attemptCandidate config rng k).numbers
            (attemptCandidate config rng k).ops).result = true) := by
  unfold attemptProblem at h
  dsimp only at h
  split_ifs at h with h1 h2
  · simp at h
  · simp at h
  · have hX := congrArg Prod.fst h
    dsimp only at hX
    have hp := Option.some.inj hX
    refine ⟨?_, ?_, ?_⟩
    · rw [← hp]
    · intro hneg
      have h1' := h1
      rw [hneg] at h1'
      push_neg at h1'
      have := h1' rfl
      constructor
      · exact this.1
      · cases hb : (evaluateExpressionExtended (attemptCandidate config rng k).numbers
            (attemptCandidate config rng k).ops).hasNegativeIntermediate
        · rfl
        · exact absurd hb this.2
    · intro hint
      rw [hint] at h2
      push_neg at h2
      have := h2 rfl
      cases hb : isIntegerQ (evaluateExpressionExtended (attemptCandidate config rng k).numbers
          (attemptCandidate config rng k).ops).result
      · exact absurd hb this
      · rfl

theorem generateLoop_safe (config : QuizConfig) (rng : Rng) :
    ∀ (fuel k : ℕ),
      (config.allowNegative = false →
          0 ≤ ((generateLoop config rng fuel k).1).correctAnswer)
        ∧ (config.integerDivisionOnly = true →
            isIntegerQ ((generateLoop config rng fuel k).1).correctAnswer = true) := by
  intro fuel
  induction fuel with
  | zero =>
      intro k
      constructor
      · intro _
        show (0 : ℚ) ≤ (2 : ℚ)
        norm_num
      · intro _
        show isIntegerQ (2 : ℚ) = true
        simp [isIntegerQ]
  | succ f ih =>
      intro k
      cases hA : attemptProblem config rng k with
      | mk o k1 =>
          cases o with
          | some p =>
              have hacc := attemptProblem_accepts config rng k p k1 hA
              have hres : (generateLoop config rng (f + 1) k).1 = p := by
                simp [generateLoop, hA]
              rw [hres]
              constructor
              · intro hneg
                rw [hacc.1]
                exact (hacc.2.1 hneg).1
              · intro hint
                rw [hacc.1]
                exact hacc.2.2 hint
          | none =>
              have hres : generateLoop config rng (f + 1) k = generateLoop config rng f k1 := by
                simp [generateLoop, hA]
              rw [hres]
              exact ih k1

theorem fillDedup_mem (config : QuizConfig) (rng : Rng) :
    ∀ (fuel : ℕ) (probs : List MathProblem) (seen : List String) (k : ℕ) (p : MathProblem),
      p ∈ (fillDedup config rng fuel probs seen k).1 →
      p ∈ probs ∨ ∃ k0, p = (generateSingleProblem config rng k0).1 := by
  intro fuel
  induction fuel with
  | zero => intro probs seen k p h; exact Or.inl (by simpa [fillDedup] using h)
  | succ f ih =>
      intro probs seen k p h
      rw [fillDedup] at h
      dsimp only at h
      split_ifs at h with hlt hc
      · exact ih _ _ _ _ h
      · rcases ih _ _ _ _ h with hin | hgen
        · rcases List.mem_append.mp hin with hl | hr
          · exact Or.inl hl
          · exact Or.inr ⟨k, by simpa using hr⟩
        · exact Or.inr hgen
      · exact Or.inl h

theorem fillRest_mem (config : QuizConfig) (rng : Rng) :
    ∀ (probs : List MathProblem) (k : ℕ) (p : MathProblem),
      p ∈ (fillRest config rng probs k).1 →
      p ∈ probs ∨ ∃ k0, p = (generateSingleProblem config rng k0).1 := by
  suffices H : ∀ (n : ℕ) (probs : List MathProblem) (k : ℕ) (p : MathProblem),
      config.quantity - probs.length ≤ n →
      p ∈ (fillRest config rng probs k).1 →
      p ∈ probs ∨ ∃ k0, p = (generateSingleProblem config rng k0).1 by
    intro probs k p h
    exact H config.quantity probs k p (by omega) h
  intro n
  induction n with
  | zero =>
      intro probs k p hn h
      have hge : ¬ probs.length < config.quantity := by omega
      rw [fillRest, dif_neg hge] at h
      exact Or.inl h
  | succ m ih =>
      intro probs k p hn h
      rw [fillRest] at h
      by_cases hlt : probs.length < config.quantity
      · rw [dif_pos hlt] at h
        dsimp only at h
        rcases ih _ _ _ (by simp; omega) h with hin | hgen
        · rcases List.mem_append.mp hin with hl | hr
          · exact Or.inl hl
          · exact Or.inr ⟨k, by simpa using hr⟩
        · exact Or.inr hgen
      · rw [dif_neg hlt] at h
        exact Or.inl h

/-- C4: every problem returned by `generateSingleProblem` — the fallback
included, and hence every problem of a generated set — has a nonnegative
answer when negatives are disallowed and an integer answer when integer-only
division is required; moreover every accepted (non-fallback) attempt also had
no negative intermediate during its evaluation when negatives are
disallowed. -/
theorem generated_problems_satisfy_constraints :
    (∀ (config : QuizConfig) (rng : Rng) (k : ℕ) (p : MathProblem),
        (p = (generateSingleProblem config rng k).1
            ∨ p ∈ (generateProblemSet config rng k).1) →
        (config.allowNegative = false → 0 ≤ p.correctAnswer)
          ∧ (config.integerDivisionOnly = true → isIntegerQ p.correctAnswer = true))
      ∧ (∀ (config : QuizConfig) (rng : Rng) (k k1 : ℕ) (p : MathProblem),
          attemptProblem config rng k = (some p, k1) → config.allowNegative = false →
          (evaluateExpressionExtended (attemptCandidate config rng k).numbers
              (attemptCandidate config rng k).ops).hasNegativeIntermediate = false) := by
  constructor
  · intro config rng k p hp
    have key : ∀ k0 : ℕ,
        (config.allowNegative = false →
            0 ≤ ((generateSingleProblem config rng k0).1).correctAnswer)
          ∧ (config.integerDivisionOnly = true →
              isIntegerQ ((generateSingleProblem config rng k0).1).correctAnswer = true) :=
      fun k0 => generateLoop_safe config rng 200 k0
    rcases hp with hp | hp
    · rw [hp]
      exact key k
    · unfold generateProblemSet at hp
      dsimp only at hp
      rcases fillRest_mem config rng _ _ p hp with hin | hgen
      · rcases fillDedup_mem config rng _ _ _ _ p hin with h0 | hgen
        · simp at h0
        · obtain ⟨k0, hk0⟩ := hgen
          rw [hk0]
          exact key k0
      · obtain ⟨k0, hk0⟩ := hgen
        rw [hk0]
        exact key k0
  · intro config rng k k1 p hA hneg
    exact ((attemptProblem_accepts config rng k p k1 hA).2.1 hneg).2

theorem generated_problems_satisfy_constraints_inst :
    0 ≤ ((generateSingleProblem cfgSub rng0 0).1).correctAnswer
      ∧ isIntegerQ ((generateSingleProblem cfgSub rng0 0).1).correctAnswer = true :=
  ⟨(generated_problems_satisfy_constraints.1 cfgSub rng0 0 _ (Or.inl rfl)).1 rfl,
   (generated_problems_satisfy_constraints.1 cfgSub rng0 0 _ (Or.inl rfl)).2 rfl⟩

theorem getD_set_ne_idx (l : List ℚ) (i j : ℕ) (v : ℚ) (h : i ≠ j) :
    (l.set i v).getD j 0 = l.getD j 0 := by
  simp [List.getD_eq_getElem?_getD, List.getElem?_set_ne h]

theorem getD_set_self_idx (l : List ℚ) (i : ℕ) (v : ℚ) (h : i < l.length) :
    (l.set i v).getD i 0 = v := by
  simp [List.getD_eq_getElem?_getD, List.getElem?_set_self, h]

theorem divFixup_length (ops : List Operator) (rng : Rng) (st : List ℚ × ℕ) (i : ℕ) :
    ((divFixup ops rng st i).1).length = st.1.length := by
  unfold divFixup
  split_ifs <;> simp

theorem divFixup_foldl_length (ops : List Operator) (rng : Rng) :
    ∀ (l : List ℕ) (st : List ℚ × ℕ),
      ((l.foldl (divFixup ops rng) st).1).length = st.1.length := by
  intro l
  induction l with
  | nil => intro st; rfl
  | cons a t ih =>
      intro st
      rw [List.foldl_cons, ih]
      exact divFixup_length ops rng st a

theorem divFixup_preserves (ops : List Operator) (rng : Rng) (st : List ℚ × ℕ) (j i : ℕ)
    (hj : ops.getD j Operator.addition ≠ Operator.division ∨ i + 2 ≤ j) :
    ((divFixup ops rng st j).1).getD i 0 = st.1.getD i 0
      ∧ ((divFixup ops rng st j).1).getD (i + 1) 0 = st.1.getD (i + 1) 0 := by
  unfold divFixup
  rcases hj with hj | hj
  · rw [if_neg hj]
    exact ⟨rfl, rfl⟩
  · by_cases hdiv : ops.getD j Operator.addition = Operator.division
    · rw [if_pos hdiv]
      dsimp only
      split_ifs with hz
      · constructor
        · rw [getD_set_ne_idx _ _ _ _ (by omega), getD_set_ne_idx _ _ _ _ (by omega)]
        · rw [getD_set_ne_idx _ _ _ _ (by omega), getD_set_ne_idx _ _ _ _ (by omega)]
      · constructor
        · rw [getD_set_ne_idx _ _ _ _ (by omega)]
        · rw [getD_set_ne_idx _ _ _ _ (by omega)]
    · rw [if_neg hdiv]
      exact ⟨rfl, rfl⟩

theorem divFixup_foldl_preserves (ops : List Operator) (rng : Rng) :
    ∀ (l : List ℕ) (st : List ℚ × ℕ) (i : ℕ),
      (∀ j ∈ l, ops.getD j Operator.addition ≠ Operator.division ∨ i + 2 ≤ j) →
      ((l.foldl (divFixup ops rng) st).1).getD i 0 = st.1.getD i 0
        ∧ ((l.foldl (divFixup ops rng) st).1).getD (i + 1) 0 = st.1.getD (i + 1) 0 := by
  intro l
  induction l with
  | nil => intro st i _; exact ⟨rfl, rfl⟩
  | cons a t ih =>
      intro st i hcond
      rw [List.foldl_cons]
      have hstep := divFixup_preserves ops rng st a i (hcond a (List.mem_cons_self a t))
      have hrest := ih (divFixup ops rng st a) i fun j hj => hcond j (List.mem_cons_of_mem a hj)
      exact ⟨hrest.1.trans hstep.1, hrest.2.trans hstep.2⟩

theorem divFixup_div_slot (ops : List Operator) (rng : Rng) (st : List ℚ × ℕ) (i : ℕ)
    (hdiv : ops.getD i Operator.addition = Operator.division)
    (hlen : i + 1 < st.1.length)
    (hfl : 0 ≤ rng.floats st.2 ∧ rng.floats st.2 < 1) :
    ∃ m : ℤ, 1 ≤ m ∧ m ≤ 10
      ∧ ((divFixup ops rng st i).1).getD (i + 1) 0 ≠ 0
      ∧ ((divFixup ops rng st i).1).getD i 0
          = ((divFixup ops rng st i).1).getD (i + 1) 0 * (m : ℚ) := by
  have h0 : (0 : ℤ) ≤ ⌊rng.floats st.2 * 10⌋ :=
    Int.le_floor.mpr (by push_cast; nlinarith [hfl.1])
  have h9 : ⌊rng.floats st.2 * 10⌋ < 10 :=
    Int.floor_lt.mpr (by push_cast; nlinarith [hfl.2])
  have key : ∀ nums1 : List ℚ, nums1.length = st.1.length → nums1.getD (i + 1) 0 ≠ 0 →
      (nums1.set i (nums1.getD (i + 1) 0 * ((⌊rng.floats st.2 * 10⌋ + 1 : ℤ) : ℚ))).getD (i + 1) 0 ≠ 0
        ∧ (nums1.set i (nums1.getD (i + 1) 0 * ((⌊rng.floats st.2 * 10⌋ + 1 : ℤ) : ℚ))).getD i 0
            = (nums1.set i (nums1.getD (i + 1) 0 * ((⌊rng.floats st.2 * 10⌋ + 1 : ℤ) : ℚ))).getD (i + 1) 0
                * ((⌊rng.floats st.2 * 10⌋ + 1 : ℤ) : ℚ) := by
    intro nums1 hlen1 hb
    have e2 : (nums1.set i (nums1.getD (i + 1) 0 * ((⌊rng.floats st.2 * 10⌋ + 1 : ℤ) : ℚ))).getD (i + 1) 0
        = nums1.getD (i + 1) 0 := getD_set_ne_idx _ _ _ _ (by omega)
    have e1 : (nums1.set i (nums1.getD (i + 1) 0 * ((⌊rng.floats st.2 * 10⌋ + 1 : ℤ) : ℚ))).getD i 0
        = nums1.getD (i + 1) 0 * ((⌊rng.floats st.2 * 10⌋ + 1 : ℤ) : ℚ) :=
      getD_set_self_idx _ _ _ (by omega)
    rw [e1, e2]
    exact ⟨hb, rfl⟩
  unfold divFixup
  rw [if_pos hdiv]
  dsimp only
  split_ifs with hz
  · have hk := key (st.1.set (i + 1) 1) (by simp)
      (by rw [getD_set_self_idx _ _ _ hlen]; norm_num)
    exact ⟨⌊rng.floats st.2 * 10⌋ + 1, by omega, by omega, hk.1, hk.2⟩
  · have hk := key st.1 rfl hz
    exact ⟨⌊rng.floats st.2 * 10⌋ + 1, by omega, by omega, hk.1, hk.2⟩

theorem isIntegerQ_iff (q : ℚ) : isIntegerQ q = true ↔ ∃ z : ℤ, q = (z : ℚ) := by
  unfold isIntegerQ
  rw [beq_iff_eq]
  constructor
  · intro h
    exact ⟨q.num, ((Rat.den_eq_one_iff q).mp h).symm⟩
  · rintro ⟨z, rfl⟩
    exact Rat.den_intCast z

theorem isIntegerQ_eq_false (q : ℚ) (h : ¬ ∃ z : ℤ, q = (z : ℚ)) : isIntegerQ q = false := by
  cases hq : isIntegerQ q
  · rfl
  · exact absurd ((isIntegerQ_iff q).mp hq) h

/-- C5 amended: after the integer-division fix-up pass, every division slot
whose immediately following operator slot is not itself a division has a
nonzero right operand and a left operand equal to the right operand times an
integer multiplier `m ∈ [1, 10]`, so reducing that slot divides exactly to
`m`.  (For two adjacent division slots the later fix-up overwrites the shared
operand and the guarantee can fail — see the counterexample.) -/
theorem division_fixup_integer_quotient :
    ∀ (rng : Rng) (nums : List ℚ) (ops : List Operator) (k i : ℕ),
      (∀ j, 0 ≤ rng.floats j ∧ rng.floats j < 1) →
      nums.length = ops.length + 1 →
      i < ops.length →
      ops.getD i Operator.addition = Operator.division →
      ops.getD (i + 1) Operator.addition ≠ Operator.division →
      ∃ m : ℤ, 1 ≤ m ∧ m ≤ 10
        ∧ (((List.range ops.length).foldl (divFixup ops rng) (nums, k)).1).getD (i + 1) 0 ≠ 0
        ∧ (((List.range ops.length).foldl (divFixup ops rng) (nums, k)).1).getD i 0
            = (((List.range ops.length).foldl (divFixup ops rng) (nums, k)).1).getD (i + 1) 0
                * (m : ℚ)
        ∧ mdApply Operator.division
            ((((List.range ops.length).foldl (divFixup ops rng) (nums, k)).1).getD i 0)
            ((((List.range ops.length).foldl (divFixup ops rng) (nums, k)).1).getD (i + 1) 0)
            = (m : ℚ) := by
  intro rng nums ops k i hfl hlen hi hdiv hnext
  have hsplit : List.range ops.length
      = (List.range i ++ [i]) ++ (List.range (ops.length - (i + 1))).map ((i + 1) + ·) := by
    rw [← List.range_succ, ← List.range_add]
    congr 1
    omega
  rw [hsplit, List.foldl_append, List.foldl_append]
  simp only [List.foldl_cons, List.foldl_nil]
  set st0 := (List.range i).foldl (divFixup ops rng) (nums, k) with hst0
  have hlen0 : st0.1.length = nums.length := divFixup_foldl_length ops rng _ _
  obtain ⟨m, hm1, hm10, hb, heq⟩ :=
    divFixup_div_slot ops rng st0 i hdiv (by omega) (hfl st0.2)
  have hpres := divFixup_foldl_preserves ops rng
    ((List.range (ops.length - (i + 1))).map ((i + 1) + ·)) (divFixup ops rng st0 i) i ?cond
  case cond =>
    intro j hj
    obtain ⟨t, _, rfl⟩ := List.mem_map.mp hj
    by_cases ht : t = 0
    · subst ht
      exact Or.inl (by simpa using hnext)
    · exact Or.inr (by omega)
  refine ⟨m, hm1, hm10, ?_, ?_, ?_⟩
  · rw [hpres.2]
    exact hb
  · rw [hpres.1, hpres.2]
    exact heq
  · rw [hpres.1, hpres.2, heq]
    unfold mdApply
    rw [if_neg (by decide), if_pos hb]
    exact mul_div_cancel_left₀ _ hb

theorem division_fixup_integer_quotient_inst :
    ∃ m : ℤ, 1 ≤ m ∧ m ≤ 10
      ∧ (((List.range 2).foldl
            (divFixup [Operator.division, Operator.addition] rngHalf) ([5, 2, 3], 0)).1).getD 1 0 ≠ 0
      ∧ (((List.range 2).foldl
            (divFixup [Operator.division, Operator.addition] rngHalf) ([5, 2, 3], 0)).1).getD 0 0
          = (((List.range 2).foldl
              (divFixup [Operator.division, Operator.addition] rngHalf) ([5, 2, 3], 0)).1).getD 1 0
              * (m : ℚ)
      ∧ mdApply Operator.division
          ((((List.range 2).foldl
              (divFixup [Operator.division, Operator.addition] rngHalf) ([5, 2, 3], 0)).1).getD 0 0)
          ((((List.range 2).foldl
              (divFixup [Operator.division, Operator.addition] rngHalf) ([5, 2, 3], 0)).1).getD 1 0)
          = (m : ℚ) :=
  division_fixup_integer_quotient rngHalf [5, 2, 3] [Operator.division, Operator.addition] 0 0
    (fun _ => ⟨by norm_num [rngHalf], by norm_num [rngHalf]⟩)
    (by decide) (by decide) (by decide) (by decide)

/-- C5 counterexample: with two adjacent division slots, the fix-up pass does
not guarantee integer quotients at every division slot.  Concretely, sampled
operands `[5, 2, 3]` with operators `÷ ÷` and an oracle drawing 0 everywhere
(multiplier 1 at both slots) are fixed up to `2 ÷ 3 ÷ 3`: the second slot's
fix-up overwrote the operand `2`-slot guarantee, the first reduction computes
`2 / 3`, which is not an integer, and the final evaluated result `11/50` is
not an integer either. -/
theorem division_fixup_counterexample :
    ((List.range 2).foldl (divFixup [Operator.division, Operator.division] rng0) ([5, 2, 3], 0)).1
        = [2, 3, 3]
      ∧ mdApply Operator.division (2 : ℚ) 3 = 2 / 3
      ∧ isIntegerQ ((2 : ℚ) / 3) = false
      ∧ (evaluateExpressionExtended [2, 3, 3] [Operator.division, Operator.division]).result
          = 11 / 50
      ∧ isIntegerQ ((11 : ℚ) / 50) = false := by
  refine ⟨?_, ?_, ?_, ?_, ?_⟩
  · simp +decide [divFixup, rng0, List.range_succ, List.range_zero]
  · unfold mdApply
    rw [if_neg (by decide), if_pos (by norm_num)]
  · apply isIntegerQ_eq_false
    rintro ⟨z, hz⟩
    rw [div_eq_iff (by norm_num)] at hz
    have h3 : (2 : ℤ) = z * 3 := by exact_mod_cast hz
    omega
  · simp +decide [evaluateExpressionExtended, mdLoopF, asStep, asApply, mdApply, round2]
    norm_num
  · apply isIntegerQ_eq_false
    rintro ⟨z, hz⟩
    rw [div_eq_iff (by norm_num)] at hz
    have h50 : (11 : ℤ) = z * 50 := by exact_mod_cast hz
    omega
